import Mathlib

/-!
Shallow embedding of the Haven vaults transfer/relay core.

Sources embedded here:
- `app/api/relay/route.ts` — peer-transfer relay: `buildUserTransferTx`,
  the client-signed PATH A, and the server-built legacy intent path.
- `app/api/transfers/email/claim/route.ts` (create leg) — escrow deposit via
  the relay plus persistence of the `EmailClaim` row.
- `app/api/transfers/user/claim/route.ts` and
  `app/api/transfers/user/cancel/route.ts` — batched escrow sweeps.
- `lib/claim-token.ts` — claim-token sign/verify over `jsonwebtoken`.

Modelling conventions: public keys and derived associated token accounts are
an inductive `Addr` (the ATA derivation `getAssociatedTokenAddressSync` is a
deterministic pure function in the source, modelled as a constructor so that
derivation is injective); UI amounts (JS `number`) are ℚ and on-chain minor
units are ℤ; wall-clock times are ℤ milliseconds since epoch, and an ISO
date string is represented by the ℤ millisecond value it denotes; network
and database effects are modelled as explicit event traces in source order.
-/

namespace Haven

/-- Addresses: opaque base58 keys, or associated token accounts derived
deterministically from (mint, owner, token program) as in
`getAssociatedTokenAddressSync(mint, owner, false, programId)`. -/
inductive Addr where
  | key (s : String)
  | ata (mint : Addr) (owner : Addr) (programId : Addr)
deriving DecidableEq, Repr

/-- Model of `getAssociatedTokenAddressSync` from `@solana/spl-token`: a pure,
deterministic derivation of the owner's holding account for a mint. -/
def getAssociatedTokenAddressSync (mint owner programId : Addr) : Addr :=
  .ata mint owner programId

/-- The legacy SPL token program id (`TOKEN_PROGRAM_ID`). -/
def TOKEN_PROGRAM_ID : Addr := .key "TokenProgram"

/-- The token-2022 program id (`TOKEN_2022_PROGRAM_ID`). -/
def TOKEN_2022_PROGRAM_ID : Addr := .key "Token2022Program"

/-- Env constant `NEXT_PUBLIC_USDC_MINT`. -/
def USDC_MINT : Addr := .key "UsdcMint"

/-- Env constant `NEXT_PUBLIC_APP_TREASURY_OWNER`, the fee-collection owner. -/
def TREASURY_OWNER : Addr := .key "TreasuryOwner"

/-- Env constant `NEXT_PUBLIC_HAVEN_FEEPAYER_ADDRESS`, the sponsor fee payer. -/
def HAVEN_PUBKEY : Addr := .key "HavenFeePayer"

/-- Env constant `NEXT_PUBLIC_HAVEN_ESCROW_OWNER` (the deployment configures it
distinct from the treasury owner; it falls back to the fee-payer address when
unset, which this model does not exercise). -/
def ESCROW_OWNER : Addr := .key "EscrowOwner"

/-- The escrow authority public key used by the sweep routes (`ESCROW_PUBKEY`),
equal to the escrow owner constant. -/
def ESCROW_PUBKEY : Addr := ESCROW_OWNER

/-- USDC decimal places (`DECIMALS = 6`). -/
def DECIMALS : ℕ := 6

/-- The fixed processing fee in UI units (`FEE_UI = 0.02`). -/
def FEE_UI : ℚ := 2 / 100

/-- Sweep batch size cap (`MAX_PER_TX = 8`). -/
def MAX_PER_TX : ℕ := 8

/-- JS `Math.round(ui * 1_000_000)` (also `Math.round(amountUi * 10 ** DECIMALS)`
with `DECIMALS = 6`): conversion of a UI amount to integer minor units.
`Math.round x = Math.floor (x + 1/2)` on the values involved. -/
def toUnits (ui : ℚ) : ℤ := ⌊ui * 1000000 + 1/2⌋

/-- Atomic on-chain operations emitted by the instruction builders:
idempotent associated-token-account creation
(`createAssociatedTokenAccountIdempotentInstruction(payer, ata, owner, mint,
programId)`) and checked token transfers
(`createTransferCheckedInstruction(source, mint, dest, authority, amount,
decimals, [], programId)`). -/
inductive Ix where
  | ensureAtaIdempotent (payer ataAddr owner mint programId : Addr)
  | transferChecked (source mint dest authority : Addr) (amount : ℤ)
      (decimals : ℕ) (programId : Addr)
deriving DecidableEq, Repr

/-- A compiled transaction message: fee payer slot, checkpoint, ordered
instructions (`TransactionMessage({payerKey, recentBlockhash, instructions})`). -/
structure TxMsg where
  payerKey : Addr
  recentBlockhash : ℕ
  instructions : List Ix
deriving DecidableEq, Repr

/-- Model of `buildUserTransferTx` (`app/api/relay/route.ts` lines 139–202):
the sponsor-fee-payer peer transfer. Rejects totals that are not greater than
the fixed fee (the JS guard also rejects non-finite `number`s, which have no
counterpart in ℚ), then emits the net transfer to the destination ATA and the
fee transfer to the treasury ATA, both authorized by `fromOwner`. -/
def buildUserTransferTx (mint tokenProgramId sourceTokenAccount fromOwner
    toOwner treasuryOwner : Addr) (totalUi : ℚ) (feePayer : Addr)
    (recentBlockhash : ℕ) : Except String TxMsg :=
  if totalUi ≤ FEE_UI then
    .error "Amount must be greater than 0.02 USDC"
  else
    let total := toUnits totalUi
    let fee := toUnits FEE_UI
    let net := total - fee
    let toAta := getAssociatedTokenAddressSync mint toOwner tokenProgramId
    let treasuryAta := getAssociatedTokenAddressSync mint treasuryOwner tokenProgramId
    .ok { payerKey := feePayer
          recentBlockhash := recentBlockhash
          instructions :=
            [ .transferChecked sourceTokenAccount mint toAta fromOwner net
                DECIMALS tokenProgramId,
              .transferChecked sourceTokenAccount mint treasuryAta fromOwner fee
                DECIMALS tokenProgramId ] }

/-- Sum of the amounts of all `transferChecked` instructions whose destination
is `dest`: the minor units a transaction moves into that account. -/
def sumTransfersTo (dest : Addr) (ixs : List Ix) : ℤ :=
  (ixs.filterMap fun ix =>
    match ix with
    | .transferChecked _ _ d _ amt _ _ => if d = dest then some amt else none
    | _ => none).sum

/-- The minor units the create-leg relay transfer moves into the escrow holding
account: the email-claim create route posts
`intent = { fromOwner, toOwner: ESCROW_OWNER, totalAmountUi: amountUi }` to the
relay, whose legacy path builds the transaction with `buildUserTransferTx`. -/
def createLegEscrowDeposit (sourceTokenAccount fromOwner tokenProgramId : Addr)
    (amountUi : ℚ) : Option ℤ :=
  match buildUserTransferTx USDC_MINT tokenProgramId sourceTokenAccount fromOwner
      ESCROW_OWNER TREASURY_OWNER amountUi HAVEN_PUBKEY 0 with
  | .error _ => none
  | .ok tx =>
      some (sumTransfersTo
        (getAssociatedTokenAddressSync USDC_MINT ESCROW_OWNER tokenProgramId)
        tx.instructions)

/-- The `amountUnits` value the create route persists on the `EmailClaim` row:
`Math.round(amountUi * 10 ** DECIMALS)`
(`app/api/transfers/email/claim/route.ts`). -/
def persistedAmountUnits (amountUi : ℚ) : ℤ := toUnits amountUi

lemma toUnits_fee : toUnits FEE_UI = 20000 := by norm_num [toUnits, FEE_UI]

lemma toUnits_three : toUnits 3 = 3000000 := by norm_num [toUnits]

/-- C3: for every peer transfer whose total strictly exceeds the fixed fee, the
instruction builder emits exactly two value-movement operations from the source
holding account — `net = total − fee` to the destination ATA and the fixed
`fee = 20000` minor units to the treasury ATA — both authorized by the source
owner, with `net + fee = total` exactly in integer minor units. -/
theorem C3_fee_split_exact (mint tokenProgramId sourceTokenAccount fromOwner
    toOwner treasuryOwner feePayer : Addr) (recentBlockhash : ℕ) (totalUi : ℚ)
    (h : FEE_UI < totalUi) :
    buildUserTransferTx mint tokenProgramId sourceTokenAccount fromOwner toOwner
        treasuryOwner totalUi feePayer recentBlockhash =
      .ok { payerKey := feePayer
            recentBlockhash := recentBlockhash
            instructions :=
              [ .transferChecked sourceTokenAccount mint
                  (getAssociatedTokenAddressSync mint toOwner tokenProgramId)
                  fromOwner (toUnits totalUi - 20000) DECIMALS tokenProgramId,
                .transferChecked sourceTokenAccount mint
                  (getAssociatedTokenAddressSync mint treasuryOwner tokenProgramId)
                  fromOwner 20000 DECIMALS tokenProgramId ] } ∧
      (toUnits totalUi - 20000) + 20000 = toUnits totalUi := by
  constructor
  · simp only [buildUserTransferTx, if_neg (not_le.mpr h), toUnits_fee]
  · ring

/-- Witness for C3 at the concrete total `5` UI units. -/
theorem C3_witness :
    FEE_UI < (5 : ℚ) ∧
      (buildUserTransferTx USDC_MINT TOKEN_PROGRAM_ID (.key "src") (.key "alice")
          (.key "bob") TREASURY_OWNER 5 HAVEN_PUBKEY 7 =
        .ok { payerKey := HAVEN_PUBKEY
              recentBlockhash := 7
              instructions :=
                [ .transferChecked (.key "src") USDC_MINT
                    (getAssociatedTokenAddressSync USDC_MINT (.key "bob") TOKEN_PROGRAM_ID)
                    (.key "alice") (toUnits 5 - 20000) DECIMALS TOKEN_PROGRAM_ID,
                  .transferChecked (.key "src") USDC_MINT
                    (getAssociatedTokenAddressSync USDC_MINT TREASURY_OWNER TOKEN_PROGRAM_ID)
                    (.key "alice") 20000 DECIMALS TOKEN_PROGRAM_ID ] } ∧
        (toUnits 5 - 20000) + 20000 = toUnits 5) :=
  ⟨by norm_num [FEE_UI],
   C3_fee_split_exact USDC_MINT TOKEN_PROGRAM_ID (.key "src") (.key "alice")
     (.key "bob") TREASURY_OWNER HAVEN_PUBKEY 7 5 (by norm_num [FEE_UI])⟩

/-- C1: evaluation of the create leg at the failing input `amountUi = 3`: the
escrow holding account receives `2980000` minor units on-chain (the fee
`20000` goes to the treasury ATA), while the route persists
`amountUnits = 3000000` on the `EmailClaim` row — so the recorded value does
not equal the amount actually moved into escrow. -/
theorem C1_escrow_deposit_shortfall :
    createLegEscrowDeposit (.key "senderSrc") (.key "sender") TOKEN_PROGRAM_ID 3 =
        some 2980000 ∧
      persistedAmountUnits 3 = 3000000 := by
  constructor
  · rw [createLegEscrowDeposit, buildUserTransferTx, if_neg (by norm_num [FEE_UI])]
    simp [sumTransfersTo, getAssociatedTokenAddressSync, toUnits_fee, toUnits_three,
      ESCROW_OWNER, TREASURY_OWNER]
  · rw [persistedAmountUnits, toUnits_three]

/-- Network / persistence events, in the order the routes await them.
Transaction tags in the legacy relay path: `0` is the ensure-ATAs
transaction, `1` is the peer-transfer transaction; in the sweep loops the tag
is the batch index. `confirmTx` is emitted only when the
`confirmTransaction` poll succeeds. -/
inductive Ev where
  | detectProgram
  | fetchBlockhash (tag : ℕ)
  | sendTx (tag : ℕ)
  | confirmTx (tag : ℕ)
  | generateSigner
  | readTokenAccounts
  | persistPending
  | markClaimed (tag : ℕ)
  | markCanceled (tag : ℕ)
  | sendEmail
  | sponsorSignAndSend
deriving DecidableEq, Repr

/-- A token account returned by `getTokenAccountsByOwner`: its address, the
program that owns the account (`v.account.owner`), and its balance
(`Number(acc.amount)`). -/
structure TokenAccount where
  pubkey : Addr
  ownerProgram : Addr
  amount : ℤ
deriving DecidableEq, Repr

/-- Model of `detectTokenProgramId` (`app/api/relay/route.ts` lines 102–109):
chooses the token program from the owner of the mint account, defaulting to the
legacy program. -/
def detectTokenProgramId (mintProgram : Addr) : Addr :=
  if mintProgram = TOKEN_PROGRAM_ID then TOKEN_PROGRAM_ID
  else if mintProgram = TOKEN_2022_PROGRAM_ID then TOKEN_2022_PROGRAM_ID
  else TOKEN_PROGRAM_ID

/-- The source-selection loop over the owner token accounts
(`app/api/relay/route.ts` lines 356–368): keep the account with the strictly
largest balance among accounts owned by the detected token program. -/
def selectSourceLoop (prog : Addr) : List TokenAccount → Option Addr × ℤ → Option Addr × ℤ
  | [], acc => acc
  | v :: rest, acc =>
      selectSourceLoop prog rest
        (if v.ownerProgram = prog then
           (if acc.2 < v.amount then (some v.pubkey, v.amount) else acc)
         else acc)

/-- Source selection for the legacy intent path (`app/api/relay/route.ts`
lines 352–391): scan the owner token accounts for the largest balance; when
the scan finds nothing (or the account listing failed), fall back to the
derived ATA, whose balance reads `0` when the account does not exist
(`ataBalance = none`). -/
def selectSource (prog mint fromOwner : Addr) (listFails : Bool)
    (accounts : List TokenAccount) (ataBalance : Option ℤ) : Addr × ℤ :=
  let scanned := if listFails then (none, 0) else selectSourceLoop prog accounts (none, 0)
  match scanned.1 with
  | some pk => (pk, scanned.2)
  | none => (getAssociatedTokenAddressSync mint fromOwner prog, ataBalance.getD 0)

/-- A transfer intent for the legacy relay path
(`{ fromOwner, toOwner, totalAmountUi }`). -/
structure Intent where
  fromOwner : Addr
  toOwner : Addr
  totalAmountUi : ℚ
deriving DecidableEq, Repr

/-- Request-independent environment of one legacy relay invocation: the
caller user record, credential state, and the responses the chain would give
to each read or broadcast the route performs. -/
structure LegacyCtx where
  mintFound : Bool
  mintProgram : Addr
  depositWalletAddr : Option Addr
  depositWalletId : Option String
  savingsWalletAddr : Option Addr
  savingsWalletId : Option String
  ataTxOk : Bool
  hasAccessToken : Bool
  authOk : Bool
  listFails : Bool
  tokenAccounts : List TokenAccount
  ataBalance : Option ℤ
  transferTxOk : Bool
deriving DecidableEq, Repr

/-- Mapping of `intent.fromOwner` to the caller wallet that will provide the
user authority signature (`app/api/relay/route.ts` lines 279–293): the deposit
wallet is tried first, then the savings wallet. -/
def resolveFromWalletId (ctx : LegacyCtx) (fromOwner : Addr) : Option String :=
  match (if ctx.depositWalletAddr = some fromOwner then ctx.depositWalletId else none) with
  | some w => some w
  | none => if ctx.savingsWalletAddr = some fromOwner then ctx.savingsWalletId else none

/-- Caller-facing outcomes of the legacy relay path. -/
inductive LegacyOutcome where
  | mintNotFound
  | unrecognizedSource
  | ataFailed
  | missingCredential
  | authError
  | insufficientFunds
  | invalidAmount
  | broadcastFailed
  | success
deriving DecidableEq, Repr

/-- Model of the legacy server-built intent path of `POST /api/relay`
(`app/api/relay/route.ts` lines 262–438), as the ordered trace of awaited
effects plus the final outcome. Source order: detect the token program (an RPC
read of the mint account), map `fromOwner` to a caller wallet, fetch a
blockhash, build/send/confirm the ensure-ATAs transaction, resolve the user
signer from the access token, list the owner token accounts and read their
balances, check the selected balance against the requested total, and only
then build, send and confirm the peer-transfer transaction. -/
def relayLegacyPath (ctx : LegacyCtx) (intent : Intent) : List Ev × LegacyOutcome :=
  if ¬ ctx.mintFound then ([.detectProgram], .mintNotFound) else
  let prog := detectTokenProgramId ctx.mintProgram
  match resolveFromWalletId ctx intent.fromOwner with
  | none => ([.detectProgram], .unrecognizedSource)
  | some _walletId =>
    if ¬ ctx.ataTxOk then
      ([.detectProgram, .fetchBlockhash 0, .sendTx 0], .ataFailed)
    else
      let evs1 : List Ev := [.detectProgram, .fetchBlockhash 0, .sendTx 0, .confirmTx 0]
      if ¬ ctx.hasAccessToken then (evs1, .missingCredential) else
      if ¬ ctx.authOk then (evs1 ++ [.generateSigner], .authError) else
      let evs2 : List Ev := evs1 ++ [.generateSigner, .readTokenAccounts]
      let src := selectSource prog USDC_MINT intent.fromOwner ctx.listFails
        ctx.tokenAccounts ctx.ataBalance
      let wantUnits := toUnits intent.totalAmountUi
      if src.2 < wantUnits then (evs2, .insufficientFunds) else
      match buildUserTransferTx USDC_MINT prog src.1 intent.fromOwner
          intent.toOwner TREASURY_OWNER intent.totalAmountUi HAVEN_PUBKEY 0 with
      | .error _ => (evs2, .invalidAmount)
      | .ok _tx =>
          if ¬ ctx.transferTxOk then (evs2 ++ [.sendTx 1], .broadcastFailed)
          else (evs2 ++ [.sendTx 1, .confirmTx 1], .success)

/-- Model of the email-claim create route
(`app/api/transfers/email/claim/route.ts`): reject totals not exceeding the
fee, run the relay legacy path with the escrow owner as destination, and only
when the relay reports a confirmed signature persist the `pending` row and
send the claim email. The Boolean reports whether a row was persisted. The
idempotency-key reuse branch, which returns an existing row and performs no
transfer and no write, is not modelled. -/
def createEmailClaimTrace (ctx : LegacyCtx) (fromOwner : Addr) (amountUi : ℚ) :
    List Ev × Bool :=
  if amountUi ≤ FEE_UI then ([], false) else
  let relay := relayLegacyPath ctx ⟨fromOwner, ESCROW_OWNER, amountUi⟩
  if relay.2 = .success then (relay.1 ++ [.persistPending, .sendEmail], true)
  else (relay.1, false)

/-- Claim lifecycle states (`EmailClaim.status`). -/
inductive ClaimStatus where
  | pending
  | claimed
  | canceled
  | expired
deriving DecidableEq, Repr

/-- A persisted `EmailClaim` row (the fields the transfer core reads and
writes; signatures are numeric stand-ins for base58 strings). -/
structure Claim where
  id : ℕ
  tokenId : String
  senderUserId : ℕ
  senderFromOwner : Addr
  recipientEmail : String
  amountUnits : ℤ
  status : ClaimStatus
  tokenExpiresAt : ℤ
  createdAt : ℤ
  claimedByUserId : Option ℕ
  claimSignature : Option ℕ
  claimedAt : Option ℤ
deriving DecidableEq, Repr

/-- The chunking loop shared by the sweep routes
(`for (let i = 0; i < pending.length; i += MAX_PER_TX) chunks.push(slice(i, i + MAX_PER_TX))`),
written with a structural fuel equal to the list length (each step consumes at
least one element, so the fuel never runs out first). -/
def chunksOfAux (n : ℕ) : ℕ → List Claim → List (List Claim)
  | _, [] => []
  | 0, l => [l]
  | fuel + 1, x :: xs => (x :: xs.take (n - 1)) :: chunksOfAux n fuel (xs.drop (n - 1))

/-- Chunks of at most `n` claims, in order. -/
def chunksOf (n : ℕ) (l : List Claim) : List (List Claim) :=
  chunksOfAux n l.length l

/-- Per-batch instruction list of the claim sweep
(`app/api/transfers/user/claim/route.ts` lines 171–194): one
`transferChecked` from the escrow ATA to the recipient ATA per claim in the
group — with no filter on `amountUnits` — prefixed on the first batch by the
two idempotent ATA-creation instructions. -/
def claimBatchInstructions (prog recipientOwner : Addr) (idx : ℕ)
    (group : List Claim) : List Ix :=
  let escrowAta := getAssociatedTokenAddressSync USDC_MINT ESCROW_PUBKEY prog
  let recipientAta := getAssociatedTokenAddressSync USDC_MINT recipientOwner prog
  let transferIxs := group.map fun cl =>
    Ix.transferChecked escrowAta USDC_MINT recipientAta ESCROW_PUBKEY
      cl.amountUnits DECIMALS prog
  if idx = 0 then
    Ix.ensureAtaIdempotent ESCROW_PUBKEY escrowAta ESCROW_PUBKEY USDC_MINT prog ::
      Ix.ensureAtaIdempotent ESCROW_PUBKEY recipientAta recipientOwner USDC_MINT prog ::
        transferIxs
  else transferIxs

/-- First occurrences of a list of owners, in order: the `uniqueOwners` set
logic of the cancel route. -/
def firstOccurrences (seen : List Addr) : List Addr → List Addr
  | [] => []
  | a :: rest =>
      if a ∈ seen then firstOccurrences seen rest
      else a :: firstOccurrences (a :: seen) rest

/-- Per-batch instruction list of the cancel sweep
(`app/api/transfers/user/cancel/route.ts` lines 147–204): the escrow
ensure-ATA instruction, one ensure-ATA per distinct sender owner in the group,
then one refund `transferChecked` per claim whose `amountUnits` is strictly
positive (`if (!(amountUnits > 0)) continue`). -/
def cancelBatchInstructions (prog : Addr) (group : List Claim) : List Ix :=
  let escrowAta := getAssociatedTokenAddressSync USDC_MINT ESCROW_PUBKEY prog
  let ensureOwnerIxs := (firstOccurrences [] (group.map (·.senderFromOwner))).map fun o =>
    Ix.ensureAtaIdempotent ESCROW_PUBKEY (getAssociatedTokenAddressSync USDC_MINT o prog)
      o USDC_MINT prog
  let refundIxs := group.filterMap fun cl =>
    if 0 < cl.amountUnits then
      some (Ix.transferChecked escrowAta USDC_MINT
        (getAssociatedTokenAddressSync USDC_MINT cl.senderFromOwner prog)
        ESCROW_PUBKEY cl.amountUnits DECIMALS prog)
    else none
  Ix.ensureAtaIdempotent ESCROW_PUBKEY escrowAta ESCROW_PUBKEY USDC_MINT prog ::
    ensureOwnerIxs ++ refundIxs

/-- Whether the cancel route sends this batch: the loop skips a group only
when the built instruction list has length at most one
(`if (instructions.length <= 1) continue`). -/
def cancelBatchSent (prog : Addr) (group : List Claim) : Bool :=
  1 < (cancelBatchInstructions prog group).length

/-- Event trace of the claim-sweep batch loop
(`app/api/transfers/user/claim/route.ts` lines 171–225): per batch, fetch a
fresh blockhash, sign-and-send the batch transaction, and mark the batch rows
claimed — with no confirmation poll in between. -/
def claimBatchesTrace : ℕ → List (List Claim) → List Ev
  | _, [] => []
  | i, _group :: rest =>
      Ev.fetchBlockhash i :: Ev.sendTx i :: Ev.markClaimed i ::
        claimBatchesTrace (i + 1) rest

/-- Event trace of the cancel-sweep batch loop
(`app/api/transfers/user/cancel/route.ts` lines 147–235): as for the claim
sweep, except that a group whose instruction list stayed at length one is
skipped without sending or marking. -/
def cancelBatchesTrace (prog : Addr) : ℕ → List (List Claim) → List Ev
  | _, [] => []
  | i, group :: rest =>
      if cancelBatchSent prog group then
        Ev.fetchBlockhash i :: Ev.sendTx i :: Ev.markCanceled i ::
          cancelBatchesTrace prog (i + 1) rest
      else cancelBatchesTrace prog (i + 1) rest

/-- Full event trace of one claim-sweep request after the pending claims have
been gathered: the token-program detection read, then the batch loop over the
chunked claims. -/
def claimSweepRun (pending : List Claim) : List Ev :=
  Ev.detectProgram :: claimBatchesTrace 0 (chunksOf MAX_PER_TX pending)

/-- Full event trace of one cancel-sweep request after the pending claims
have been gathered. -/
def cancelSweepRun (prog : Addr) (pending : List Claim) : List Ev :=
  Ev.detectProgram :: cancelBatchesTrace prog 0 (chunksOf MAX_PER_TX pending)

/-- A pending claim row used for concrete evaluations. -/
def sampleClaim : Claim :=
  { id := 1
    tokenId := "tok1"
    senderUserId := 10
    senderFromOwner := .key "sender"
    recipientEmail := "new@user.com"
    amountUnits := 3000000
    status := .pending
    tokenExpiresAt := 1000000
    createdAt := 0
    claimedByUserId := none
    claimSignature := none
    claimedAt := none }

lemma relayLegacy_success_confirm (ctx : LegacyCtx) (intent : Intent) :
    (relayLegacyPath ctx intent).2 = .success →
      Ev.confirmTx 1 ∈ (relayLegacyPath ctx intent).1 := by
  simp only [relayLegacyPath]
  repeat' split
  all_goals intro h
  all_goals simp_all

lemma relayLegacy_no_persist (ctx : LegacyCtx) (intent : Intent) :
    Ev.persistPending ∉ (relayLegacyPath ctx intent).1 := by
  simp only [relayLegacyPath]
  repeat' split
  all_goals simp

lemma claimBatches_mark_after_send (chunks : List (List Claim)) :
    ∀ (i j : ℕ), Ev.markClaimed j ∈ claimBatchesTrace i chunks →
      ∃ pre suf, claimBatchesTrace i chunks =
        pre ++ Ev.sendTx j :: Ev.markClaimed j :: suf := by
  induction chunks with
  | nil => intro i j h; simp [claimBatchesTrace] at h
  | cons g rest ih =>
      intro i j h
      simp only [claimBatchesTrace, List.mem_cons] at h
      rcases h with h | h | h | h
      · exact absurd h (by simp)
      · exact absurd h (by simp)
      · rcases Ev.markClaimed.inj h with rfl
        exact ⟨[Ev.fetchBlockhash j], claimBatchesTrace (j + 1) rest, by
          simp [claimBatchesTrace]⟩
      · obtain ⟨pre, suf, heq⟩ := ih (i + 1) j h
        exact ⟨Ev.fetchBlockhash i :: Ev.sendTx i :: Ev.markClaimed i :: pre, suf, by
          simp [claimBatchesTrace, heq]⟩

lemma cancelBatches_mark_after_send (prog : Addr) (chunks : List (List Claim)) :
    ∀ (i j : ℕ), Ev.markCanceled j ∈ cancelBatchesTrace prog i chunks →
      ∃ pre suf, cancelBatchesTrace prog i chunks =
        pre ++ Ev.sendTx j :: Ev.markCanceled j :: suf := by
  induction chunks with
  | nil => intro i j h; simp [cancelBatchesTrace] at h
  | cons g rest ih =>
      intro i j h
      by_cases hs : cancelBatchSent prog g
      · simp only [cancelBatchesTrace, hs, if_true, List.mem_cons] at h
        rcases h with h | h | h | h
        · exact absurd h (by simp)
        · exact absurd h (by simp)
        · rcases Ev.markCanceled.inj h with rfl
          exact ⟨[Ev.fetchBlockhash j], cancelBatchesTrace prog (j + 1) rest, by
            simp [cancelBatchesTrace, hs]⟩
        · obtain ⟨pre, suf, heq⟩ := ih (i + 1) j h
          exact ⟨Ev.fetchBlockhash i :: Ev.sendTx i :: Ev.markCanceled i :: pre, suf, by
            simp [cancelBatchesTrace, hs, heq]⟩
      · simp only [cancelBatchesTrace, hs, if_false] at h
        obtain ⟨pre, suf, heq⟩ := ih (i + 1) j h
        exact ⟨pre, suf, by simp [cancelBatchesTrace, hs, heq]⟩

/-- C2 counterexample: a claim-sweep run over one pending claim marks the
batch claimed (`markClaimed 0` is in the trace) although no on-chain
confirmation is ever awaited (`confirmTx` never appears): the batch rows are
marked directly after `signAndSendTransaction` returns, so the status write
does not happen after on-chain confirmation. -/
theorem C2_counterexample_mark_without_confirm :
    Ev.markClaimed 0 ∈ claimSweepRun [sampleClaim] ∧
      ∀ k, Ev.confirmTx k ∉ claimSweepRun [sampleClaim] := by
  constructor
  · decide
  · intro k
    simp [claimSweepRun, chunksOf, chunksOfAux, claimBatchesTrace, sampleClaim]

/-- C2 amended: the create leg persists the `pending` row strictly after the
escrow-deposit transaction is confirmed on-chain (the relay confirms before
returning, and the route persists only on a successful relay response); the
claim-sweep and cancel-sweep loops mark a batch's rows claimed/canceled
strictly after that batch's transaction is signed and broadcast — but without
awaiting its on-chain confirmation. -/
theorem C2_amended_status_write_ordering :
    (∀ (ctx : LegacyCtx) (fromOwner : Addr) (amountUi : ℚ),
        Ev.persistPending ∈ (createEmailClaimTrace ctx fromOwner amountUi).1 →
        ∃ pre, (createEmailClaimTrace ctx fromOwner amountUi).1 =
            pre ++ [Ev.persistPending, Ev.sendEmail] ∧ Ev.confirmTx 1 ∈ pre) ∧
    (∀ (chunks : List (List Claim)) (i j : ℕ),
        Ev.markClaimed j ∈ claimBatchesTrace i chunks →
        ∃ pre suf, claimBatchesTrace i chunks =
            pre ++ Ev.sendTx j :: Ev.markClaimed j :: suf) ∧
    (∀ (prog : Addr) (chunks : List (List Claim)) (i j : ℕ),
        Ev.markCanceled j ∈ cancelBatchesTrace prog i chunks →
        ∃ pre suf, cancelBatchesTrace prog i chunks =
            pre ++ Ev.sendTx j :: Ev.markCanceled j :: suf) := by
  refine ⟨?_, claimBatches_mark_after_send, cancelBatches_mark_after_send⟩
  intro ctx fromOwner amountUi h
  simp only [createEmailClaimTrace] at h ⊢
  split_ifs at h ⊢ with h1 h2
  · simp at h
  · exact ⟨(relayLegacyPath ctx ⟨fromOwner, ESCROW_OWNER, amountUi⟩).1,
      rfl, relayLegacy_success_confirm _ _ h2⟩
  · exact absurd h (relayLegacy_no_persist _ _)

/-- Witness for C2 amended at a concrete one-batch sweep. -/
theorem C2_amended_witness :
    Ev.markClaimed 0 ∈ claimBatchesTrace 0 [[sampleClaim]] ∧
      ∃ pre suf, claimBatchesTrace 0 [[sampleClaim]] =
        pre ++ Ev.sendTx 0 :: Ev.markClaimed 0 :: suf :=
  ⟨by decide, C2_amended_status_write_ordering.2.1 [[sampleClaim]] 0 0 (by decide)⟩

/-- Legacy relay context for a caller with a recognized deposit wallet, valid
credentials, a cooperative chain, and one source token account holding
`1000000` minor units. -/
def happyCtx : LegacyCtx :=
  { mintFound := true
    mintProgram := TOKEN_PROGRAM_ID
    depositWalletAddr := some (.key "sender")
    depositWalletId := some "wallet-1"
    savingsWalletAddr := none
    savingsWalletId := none
    ataTxOk := true
    hasAccessToken := true
    authOk := true
    listFails := false
    tokenAccounts := [⟨.key "senderSrc", TOKEN_PROGRAM_ID, 1000000⟩]
    ataBalance := none
    transferTxOk := true }

/-- C4 counterexample: a legacy-path request for `0.01` UI units from a
well-funded caller is rejected with the invalid-amount error only after the
ensure-ATAs transaction has already been broadcast (`sendTx 0` is in the
trace, as are the mint read and the balance reads) — the gate does not run
before I/O in this path. -/
theorem C4_counterexample_io_before_invalid_amount :
    (relayLegacyPath happyCtx ⟨.key "sender", ESCROW_OWNER, 1 / 100⟩).2 =
        .invalidAmount ∧
      Ev.sendTx 0 ∈ (relayLegacyPath happyCtx ⟨.key "sender", ESCROW_OWNER, 1 / 100⟩).1 ∧
      Ev.readTokenAccounts ∈
        (relayLegacyPath happyCtx ⟨.key "sender", ESCROW_OWNER, 1 / 100⟩).1 := by
  refine ⟨?_, ?_, ?_⟩ <;>
    norm_num [relayLegacyPath, happyCtx, resolveFromWalletId, detectTokenProgramId,
      selectSource, selectSourceLoop, buildUserTransferTx, toUnits, FEE_UI,
      getAssociatedTokenAddressSync]

/-- C4 amended: the amount gate inside `buildUserTransferTx` rejects every
total not exceeding the fixed fee with the invalid-amount error, building no
instructions — but in the legacy intent path that rejection is reached only
after network I/O has been performed: whenever the path ends with the
invalid-amount outcome, its trace already contains the ensure-ATAs broadcast
and confirmation and the source-balance reads. -/
theorem C4_amended_invalid_amount_gate :
    (∀ (mint tokenProgramId sourceTokenAccount fromOwner toOwner treasuryOwner
        feePayer : Addr) (recentBlockhash : ℕ) (totalUi : ℚ), totalUi ≤ FEE_UI →
        buildUserTransferTx mint tokenProgramId sourceTokenAccount fromOwner
            toOwner treasuryOwner totalUi feePayer recentBlockhash =
          .error "Amount must be greater than 0.02 USDC") ∧
    (∀ (ctx : LegacyCtx) (intent : Intent),
        (relayLegacyPath ctx intent).2 = .invalidAmount →
        Ev.sendTx 0 ∈ (relayLegacyPath ctx intent).1 ∧
          Ev.confirmTx 0 ∈ (relayLegacyPath ctx intent).1 ∧
          Ev.readTokenAccounts ∈ (relayLegacyPath ctx intent).1) := by
  constructor
  · intro mint tokenProgramId sourceTokenAccount fromOwner toOwner treasuryOwner
      feePayer recentBlockhash totalUi hle
    simp [buildUserTransferTx, if_pos hle]
  · intro ctx intent
    simp only [relayLegacyPath]
    repeat' split
    all_goals intro h
    all_goals simp_all

/-- Witness for C4 amended: the builder rejects the total `0.01`. -/
theorem C4_amended_witness :
    ((1 : ℚ) / 100) ≤ FEE_UI ∧
      buildUserTransferTx USDC_MINT TOKEN_PROGRAM_ID (.key "senderSrc")
          (.key "sender") ESCROW_OWNER TREASURY_OWNER (1 / 100) HAVEN_PUBKEY 0 =
        .error "Amount must be greater than 0.02 USDC" :=
  ⟨by norm_num [FEE_UI],
   C4_amended_invalid_amount_gate.1 USDC_MINT TOKEN_PROGRAM_ID (.key "senderSrc")
     (.key "sender") ESCROW_OWNER TREASURY_OWNER HAVEN_PUBKEY 0 (1 / 100)
     (by norm_num [FEE_UI])⟩

lemma selectSourceLoop_acc_le (prog : Addr) (l : List TokenAccount) :
    ∀ acc : Option Addr × ℤ, acc.2 ≤ (selectSourceLoop prog l acc).2 := by
  induction l with
  | nil => intro acc; exact le_rfl
  | cons v rest ih =>
      intro acc
      simp only [selectSourceLoop]
      refine le_trans ?_ (ih _)
      split_ifs with h1 h2
      · exact le_of_lt h2
      · exact le_rfl
      · exact le_rfl

lemma selectSourceLoop_ub (prog : Addr) (l : List TokenAccount) :
    ∀ acc, ∀ a ∈ l, a.ownerProgram = prog →
      a.amount ≤ (selectSourceLoop prog l acc).2 := by
  induction l with
  | nil => intro acc a ha; exact absurd ha (List.not_mem_nil a)
  | cons v rest ih =>
      intro acc a ha hprog
      rcases List.mem_cons.mp ha with rfl | ha
      · simp only [selectSourceLoop]
        refine le_trans ?_ (selectSourceLoop_acc_le prog rest _)
        rw [if_pos hprog]
        split_ifs with h2
        · exact le_rfl
        · exact le_of_not_lt h2
      · simp only [selectSourceLoop]
        exact ih _ a ha hprog

lemma selectSourceLoop_attain (prog : Addr) (l : List TokenAccount) :
    ∀ acc, selectSourceLoop prog l acc = acc ∨
      ∃ a ∈ l, a.ownerProgram = prog ∧
        (selectSourceLoop prog l acc).1 = some a.pubkey ∧
        (selectSourceLoop prog l acc).2 = a.amount := by
  induction l with
  | nil => intro acc; left; rfl
  | cons v rest ih =>
      intro acc
      simp only [selectSourceLoop]
      split_ifs with h1 h2
      · rcases ih (some v.pubkey, v.amount) with heq | ⟨a, ha, hp, heq1, heq2⟩
        · right
          exact ⟨v, List.mem_cons_self v rest, h1, by rw [heq], by rw [heq]⟩
        · right
          exact ⟨a, List.mem_cons_of_mem v ha, hp, heq1, heq2⟩
      · rcases ih acc with heq | ⟨a, ha, hp, heq1, heq2⟩
        · left; exact heq
        · right; exact ⟨a, List.mem_cons_of_mem v ha, hp, heq1, heq2⟩
      · rcases ih acc with heq | ⟨a, ha, hp, heq1, heq2⟩
        · left; exact heq
        · right; exact ⟨a, List.mem_cons_of_mem v ha, hp, heq1, heq2⟩

lemma selectSourceLoop_fixed (prog : Addr) (l : List TokenAccount) :
    ∀ acc, (∀ a ∈ l, a.ownerProgram = prog → a.amount ≤ acc.2) →
      selectSourceLoop prog l acc = acc := by
  induction l with
  | nil => intro acc _; rfl
  | cons v rest ih =>
      intro acc h
      simp only [selectSourceLoop]
      have hstep : (if v.ownerProgram = prog then
          (if acc.2 < v.amount then (some v.pubkey, v.amount) else acc)
        else acc) = acc := by
        split_ifs with h1 h2
        · exact absurd h2 (not_lt_of_le (h v (List.mem_cons_self v rest) h1))
        · rfl
        · rfl
      rw [hstep]
      exact ih acc fun a ha => h a (List.mem_cons_of_mem v ha)

/-- C10: in the legacy intent path, (1) when some token account owned by the
detected program has a positive balance, the selected debit source is such an
account and its balance is maximal among the matching accounts; (2) when no
matching account has a positive balance, the path falls back to the derived
associated token account with balance `0` when that account does not exist;
(3) whenever the selected source balance in minor units is below the requested
total, the path ends with the insufficient-funds error and the peer-transfer
transaction is never broadcast. -/
theorem C10_source_selection_and_insufficiency :
    (∀ (prog mint fromOwner : Addr) (accounts : List TokenAccount)
        (ataBalance : Option ℤ),
        (∃ a ∈ accounts, a.ownerProgram = prog ∧ 0 < a.amount) →
        ∃ a ∈ accounts, a.ownerProgram = prog ∧
          selectSource prog mint fromOwner false accounts ataBalance =
            (a.pubkey, a.amount) ∧
          ∀ b ∈ accounts, b.ownerProgram = prog → b.amount ≤ a.amount) ∧
    (∀ (prog mint fromOwner : Addr) (accounts : List TokenAccount),
        (∀ a ∈ accounts, a.ownerProgram = prog → a.amount ≤ 0) →
        selectSource prog mint fromOwner false accounts none =
          (getAssociatedTokenAddressSync mint fromOwner prog, 0)) ∧
    (∀ (ctx : LegacyCtx) (intent : Intent) (w : String),
        ctx.mintFound = true →
        resolveFromWalletId ctx intent.fromOwner = some w →
        ctx.ataTxOk = true → ctx.hasAccessToken = true → ctx.authOk = true →
        (selectSource (detectTokenProgramId ctx.mintProgram) USDC_MINT
            intent.fromOwner ctx.listFails ctx.tokenAccounts ctx.ataBalance).2 <
          toUnits intent.totalAmountUi →
        (relayLegacyPath ctx intent).2 = .insufficientFunds ∧
          Ev.sendTx 1 ∉ (relayLegacyPath ctx intent).1) := by
  refine ⟨?_, ?_, ?_⟩
  · intro prog mint fromOwner accounts ataBalance ⟨p, hp, hpprog, hppos⟩
    rcases selectSourceLoop_attain prog accounts (none, 0) with heq |
        ⟨a, ha, haprog, heq1, heq2⟩
    · have := selectSourceLoop_ub prog accounts (none, 0) p hp hpprog
      rw [heq] at this
      exact absurd (lt_of_lt_of_le hppos this) (lt_irrefl 0)
    · refine ⟨a, ha, haprog, ?_, ?_⟩
      · simp only [selectSource, Bool.false_eq_true, if_false, heq1, heq2]
      · intro b hb hbprog
        have := selectSourceLoop_ub prog accounts (none, 0) b hb hbprog
        rwa [heq2] at this
  · intro prog mint fromOwner accounts hall
    have hfix := selectSourceLoop_fixed prog accounts (none, 0) (by
      intro a ha hprog; exact hall a ha hprog)
    simp only [selectSource, Bool.false_eq_true, if_false, hfix, Option.getD_none]
  · intro ctx intent w hmint hw hata htok hauth hlt
    constructor <;>
      simp [relayLegacyPath, hmint, hw, hata, htok, hauth, hlt]

/-- Witness for C10 at a concrete underfunded request: the caller holds
`1000000` minor units and asks for `5` UI units (`5000000` minor units). -/
theorem C10_witness :
    (selectSource (detectTokenProgramId happyCtx.mintProgram) USDC_MINT
        (Addr.key "sender") happyCtx.listFails happyCtx.tokenAccounts
        happyCtx.ataBalance).2 < toUnits 5 ∧
      (relayLegacyPath happyCtx ⟨.key "sender", .key "bob", 5⟩).2 =
          .insufficientFunds ∧
        Ev.sendTx 1 ∉ (relayLegacyPath happyCtx ⟨.key "sender", .key "bob", 5⟩).1 := by
  have hlt : (selectSource (detectTokenProgramId happyCtx.mintProgram) USDC_MINT
      (Addr.key "sender") happyCtx.listFails happyCtx.tokenAccounts
      happyCtx.ataBalance).2 < toUnits 5 := by
    norm_num [selectSource, selectSourceLoop, detectTokenProgramId, happyCtx, toUnits]
  exact ⟨hlt, C10_source_selection_and_insufficiency.2.2 happyCtx
    ⟨.key "sender", .key "bob", 5⟩ "wallet-1" rfl
    (by simp [resolveFromWalletId, happyCtx]) rfl rfl rfl hlt⟩

/-- Per-row effect of the claim-sweep `updateMany`
(`app/api/transfers/user/claim/route.ts` lines 212–224): the row is mutated
only if its `_id` is in the batch and its status is still `pending` at the
moment of the write. -/
def applyMarkClaimed (ids : List ℕ) (uid sig : ℕ) (now : ℤ) (c : Claim) : Claim :=
  if c.id ∈ ids ∧ c.status = .pending then
    { c with status := .claimed
             claimedByUserId := some uid
             claimSignature := some sig
             claimedAt := some now }
  else c

/-- The claim-sweep `updateMany` over the whole store. -/
def markClaimedBatch (ids : List ℕ) (uid sig : ℕ) (now : ℤ)
    (store : List Claim) : List Claim :=
  store.map (applyMarkClaimed ids uid sig now)

/-- Per-row effect of the cancel-sweep `updateMany`
(`app/api/transfers/user/cancel/route.ts` lines 229–234): sets only the
status, and only from `pending`. -/
def applyMarkCanceled (ids : List ℕ) (c : Claim) : Claim :=
  if c.id ∈ ids ∧ c.status = .pending then { c with status := .canceled } else c

/-- The cancel-sweep `updateMany` over the whole store. -/
def markCanceledBatch (ids : List ℕ) (store : List Claim) : List Claim :=
  store.map (applyMarkCanceled ids)

/-- The opportunistic expiry flip
(`app/api/transfers/email/claim/route.ts` lines 129–138):
`findOne({ tokenId })`, and when that claim is found and still `pending`, its
status is set to `expired` and saved; any other row is untouched. -/
def expireFlip (tid : String) : List Claim → List Claim
  | [] => []
  | c :: rest =>
      if c.tokenId = tid then
        (if c.status = .pending then { c with status := .expired } :: rest
         else c :: rest)
      else c :: expireFlip tid rest

/-- Number of rows an `updateMany` with filter
`{ _id ∈ ids, status: "pending" }` would match in the store. -/
def matchedPendingCount (ids : List ℕ) (store : List Claim) : ℕ :=
  (store.filter fun c => decide (c.id ∈ ids ∧ c.status = .pending)).length

/-- C5: claimed, canceled and expired are terminal. Each transition is
conditional on `status = pending` at the moment of the write: (1)–(2) the
sweep updates leave any non-pending row unchanged; (3) the expiry flip leaves
any non-pending row unchanged in place; (4) a second sweep over rows already
processed by a first sweep with the same id set matches zero rows — the
success-no-op of the losing racer; (5) for any pending row marked by one
sweep, a second sweep (any id set, actor, signature or time) is a no-op on it,
so at most one of two racing sweeps marks any given claim. -/
theorem C5_terminal_states_conditional_update :
    (∀ (ids : List ℕ) (uid sig : ℕ) (now : ℤ) (c : Claim),
        c.status ≠ .pending → applyMarkClaimed ids uid sig now c = c) ∧
    (∀ (ids : List ℕ) (c : Claim),
        c.status ≠ .pending → applyMarkCanceled ids c = c) ∧
    (∀ (tid : String) (store : List Claim) (i : ℕ) (c : Claim),
        store.get? i = some c → c.status ≠ .pending →
        (expireFlip tid store).get? i = some c) ∧
    (∀ (ids : List ℕ) (uid1 sig1 : ℕ) (t1 : ℤ) (store : List Claim),
        matchedPendingCount ids (markClaimedBatch ids uid1 sig1 t1 store) = 0) ∧
    (∀ (ids1 ids2 : List ℕ) (uid1 sig1 uid2 sig2 : ℕ) (t1 t2 : ℤ) (c : Claim),
        c.id ∈ ids1 → c.status = .pending →
        applyMarkClaimed ids2 uid2 sig2 t2 (applyMarkClaimed ids1 uid1 sig1 t1 c) =
          applyMarkClaimed ids1 uid1 sig1 t1 c) := by
  refine ⟨?_, ?_, ?_, ?_, ?_⟩
  · intro ids uid sig now c hc
    simp [applyMarkClaimed, hc]
  · intro ids c hc
    simp [applyMarkCanceled, hc]
  · intro tid store
    induction store with
    | nil => intro i c h; simp at h
    | cons d rest ih =>
        intro i c h hc
        cases i with
        | zero =>
            simp only [List.get?, Option.some.injEq] at h
            subst h
            by_cases h1 : d.tokenId = tid
            · simp only [expireFlip, if_pos h1, if_neg hc, List.get?]
            · simp only [expireFlip, if_neg h1, List.get?]
        | succ i =>
            simp only [List.get?] at h
            by_cases h1 : d.tokenId = tid
            · by_cases h2 : d.status = ClaimStatus.pending
              · simp only [expireFlip, if_pos h1, if_pos h2, List.get?]
                exact h
              · simp only [expireFlip, if_pos h1, if_neg h2, List.get?]
                exact h
            · simp only [expireFlip, if_neg h1, List.get?]
              exact ih i c h hc
  · intro ids uid1 sig1 t1 store
    simp only [matchedPendingCount, markClaimedBatch, List.length_eq_zero,
      List.filter_eq_nil_iff]
    intro c hc
    obtain ⟨d, _, rfl⟩ := List.mem_map.mp hc
    by_cases hd : d.id ∈ ids ∧ d.status = .pending
    · simp [applyMarkClaimed, hd]
    · simp [applyMarkClaimed, if_neg hd, hd]
  · intro ids1 ids2 uid1 sig1 uid2 sig2 t1 t2 c hid hc
    have h1 : applyMarkClaimed ids1 uid1 sig1 t1 c =
        { c with status := .claimed
                 claimedByUserId := some uid1
                 claimSignature := some sig1
                 claimedAt := some t1 } := by
      rw [applyMarkClaimed, if_pos ⟨hid, hc⟩]
    rw [h1, applyMarkClaimed, if_neg (by simp)]

/-- Witness for C5 at a concrete already-claimed row. -/
theorem C5_witness :
    ({ sampleClaim with status := .claimed } : Claim).status ≠ .pending ∧
      applyMarkClaimed [1] 5 6 7 { sampleClaim with status := .claimed } =
        { sampleClaim with status := .claimed } :=
  ⟨by decide,
   C5_terminal_states_conditional_update.1 [1] 5 6 7
     { sampleClaim with status := .claimed } (by decide)⟩

/-- The raw JWT claims object as `jsonwebtoken` sees it: the current and the
legacy field namings of a claim token (`claimId`/`recipientEmail` vs
`cid`/`eml`), the `expiresAt` ISO string (represented by the millisecond
value it denotes), and the registered `exp` claim in whole seconds. -/
structure RawClaims where
  claimId : Option String := none
  cid : Option String := none
  recipientEmail : Option String := none
  eml : Option String := none
  expiresAt : Option ℤ := none
  exp : Option ℤ := none
deriving DecidableEq, Repr

/-- A signed token: payload plus the secret it was signed with (tamper
evidence: verification against a different secret fails). -/
structure Jwt where
  payload : RawClaims
  secret : String
deriving DecidableEq, Repr

/-- `jwt.sign(payload, secret)`. -/
def jwtSign (payload : RawClaims) (secret : String) : Jwt := ⟨payload, secret⟩

/-- `jwt.verify(token, secret)` at wall clock `nowMs`: rejects a token signed
with a different secret; when the payload carries `exp`, jsonwebtoken computes
`clockTimestamp = Math.floor(Date.now() / 1000)` and throws
`TokenExpiredError` when `clockTimestamp >= exp`, which the caller catches and
turns into `null`. Expiry is checked only when `exp` is present. -/
def jwtVerify (t : Jwt) (secret : String) (nowMs : ℤ) : Option RawClaims :=
  if t.secret = secret then
    match t.payload.exp with
    | some e => if e ≤ Int.fdiv nowMs 1000 then none else some t.payload
    | none => some t.payload
  else none

/-- ASCII case-folding of one character, as JS `toLowerCase` acts on the
characters appearing in emails. -/
def lowerChar (c : Char) : Char :=
  if 65 ≤ c.toNat ∧ c.toNat ≤ 90 then Char.ofNat (c.toNat + 32) else c

/-- JS `String.prototype.toLowerCase` on ASCII strings. -/
def lowerStr (s : String) : String := ⟨s.data.map lowerChar⟩

/-- The normalized payload `verifyClaimToken` returns
(`ClaimTokenPayload`): `expiresAt` is the ISO string, represented by its
millisecond value. -/
structure ClaimTokenPayload where
  claimId : String
  recipientEmail : String
  expiresAt : ℤ
deriving DecidableEq, Repr

/-- Model of `signClaimToken` (`lib/claim-token.ts` lines 46–63): lower-cases
the recipient email, normalizes `expiresAt` to its ISO string (the same
millisecond value), and sets the standard JWT `exp` to
`Math.floor(expiresAt.getTime() / 1000)` seconds. -/
def signClaimToken (secret claimId recipientEmail : String)
    (expiresAtMs : ℤ) : Jwt :=
  jwtSign
    { claimId := some claimId
      recipientEmail := some (lowerStr recipientEmail)
      expiresAt := some expiresAtMs
      exp := some (Int.fdiv expiresAtMs 1000) } secret

/-- Model of `verifyClaimToken` (`lib/claim-token.ts` lines 69–98): run
`jwt.verify`, then normalize — `claimId` from `claimId ?? cid`,
`recipientEmail` lower-cased from `recipientEmail ?? eml`, `expiresAt` from
the embedded ISO string when present, else from `exp * 1000`; return `null`
when any of the three is missing. -/
def verifyClaimToken (secret : String) (tok : Jwt) (nowMs : ℤ) :
    Option ClaimTokenPayload :=
  match jwtVerify tok secret nowMs with
  | none => none
  | some raw =>
      let cId := match raw.claimId with
        | some c => some c
        | none => raw.cid
      let email := match raw.recipientEmail with
        | some r => some (lowerStr r)
        | none =>
            match raw.eml with
            | some e => some (lowerStr e)
            | none => none
      let expiry := match raw.expiresAt with
        | some e => some e
        | none =>
            match raw.exp with
            | some e => some (e * 1000)
            | none => none
      match cId, email, expiry with
      | some c, some r, some e => some ⟨c, r, e⟩
      | _, _, _ => none

lemma fdiv_thousand_mono {a b : ℤ} (h : a ≤ b) :
    Int.fdiv a 1000 ≤ Int.fdiv b 1000 := by
  rw [Int.fdiv_eq_ediv _ (by norm_num), Int.fdiv_eq_ediv _ (by norm_num)]
  exact Int.ediv_le_ediv (by norm_num) h

/-- C7 counterexample: at `now = 1500` ms, a token whose `expiresAt = 1999` ms
is not yet expired, but `verify(sign(payload))` rejects it: `sign` truncates
the expiry to the whole second `exp = 1` and jsonwebtoken rejects when
`floor(now / 1000) >= exp`, so the claimed round trip fails for a non-expired
`expiresAt`. -/
theorem C7_counterexample_subsecond_future_rejected :
    (1500 : ℤ) < 1999 ∧
      verifyClaimToken "claim-secret"
          (signClaimToken "claim-secret" "claim-1" "a@b.com" 1999) 1500 = none := by
  constructor
  · norm_num
  · decide

/-- C7 amended: `verify(sign(payload))` returns a payload equal to the input
(with `expiresAt` normalized to the same instant) whenever `expiresAt` lies in
a strictly later whole second than `now` — not for every non-expired
`expiresAt`, since `exp` is truncated to seconds and jsonwebtoken rejects at
`floor(now / 1000) >= exp` — and returns a rejection for every `expiresAt` at
or before `now`, in particular for every `expiresAt` in the past. -/
theorem C7_amended_round_trip (secret claimId email : String)
    (expiresAtMs nowMs : ℤ) (hlower : lowerStr email = email) :
    (Int.fdiv nowMs 1000 < Int.fdiv expiresAtMs 1000 →
      verifyClaimToken secret (signClaimToken secret claimId email expiresAtMs)
          nowMs = some ⟨claimId, email, expiresAtMs⟩) ∧
    (expiresAtMs ≤ nowMs →
      verifyClaimToken secret (signClaimToken secret claimId email expiresAtMs)
          nowMs = none) := by
  constructor
  · intro hfresh
    simp only [verifyClaimToken, signClaimToken, jwtSign, jwtVerify, if_pos rfl]
    rw [if_neg (not_le.mpr hfresh)]
    simp [hlower]
  · intro hpast
    simp only [verifyClaimToken, signClaimToken, jwtSign, jwtVerify, if_pos rfl]
    rw [if_pos (fdiv_thousand_mono hpast)]
    simp

/-- Witness for C7 amended: a round trip one full second ahead of the clock,
and a rejection for an expiry in the past. -/
theorem C7_witness :
    lowerStr "a@b.com" = "a@b.com" ∧
      Int.fdiv 500 1000 < Int.fdiv 5000 1000 ∧
      verifyClaimToken "claim-secret"
          (signClaimToken "claim-secret" "claim-1" "a@b.com" 5000) 500 =
        some ⟨"claim-1", "a@b.com", 5000⟩ :=
  ⟨by decide, by decide,
   (C7_amended_round_trip "claim-secret" "claim-1" "a@b.com" 5000 500
     (by decide)).1 (by decide)⟩

/-- Replies of the token gate at the head of the batch claim route. -/
inductive ClaimGateReply where
  | invalidToken
  | linkExpired
  | emailMismatch
  | proceed
deriving DecidableEq, Repr

/-- Model of the token-validation prefix of the batch claim route
(`app/api/transfers/email/claim/route.ts` lines 121–147): verify the token —
`null` or a missing/empty recipient email is the generic 401
`Invalid or expired token`; then, when the normalized `expiresAt` has passed
(`Date.now() > new Date(payload.expiresAt).getTime()`), flip the exact
token-bound claim to `expired` if it is still pending and reply 410
(`This claim link has expired`, the claim-expired error); then require the
session email to match the token recipient. Returns the reply and the store
after any flip. -/
def claimRouteTokenGate (secret : String) (tok : Jwt) (nowMs : ℤ)
    (sessionEmail : String) (store : List Claim) :
    ClaimGateReply × List Claim :=
  match verifyClaimToken secret tok nowMs with
  | none => (.invalidToken, store)
  | some payload =>
      if payload.recipientEmail = "" then (.invalidToken, store)
      else if payload.expiresAt < nowMs then
        (.linkExpired,
          if payload.claimId = "" then store
          else expireFlip payload.claimId store)
      else if lowerStr sessionEmail ≠ lowerStr payload.recipientEmail then
        (.emailMismatch, store)
      else (.proceed, store)

/-- C6 counterexample: a claim token produced by `signClaimToken` (which
always embeds `exp`) and presented after its expiry is rejected by `verify`,
and the route then replies with the generic invalid-token error and leaves
the bound pending claim untouched — it is not flipped to `expired` and no
claim-expired error is reported, contrary to the claim's conjunction. -/
theorem C6_counterexample_expired_signed_token_not_flipped :
    verifyClaimToken "claim-secret"
        (signClaimToken "claim-secret" "tok1" "new@user.com" 1000) 5000000 =
        none ∧
      claimRouteTokenGate "claim-secret"
          (signClaimToken "claim-secret" "tok1" "new@user.com" 1000) 5000000
          "new@user.com" [sampleClaim] =
        (.invalidToken, [sampleClaim]) := by
  constructor
  · decide
  · decide

/-- C6 amended: when the presented claim token was produced by
`signClaimToken` (so it embeds `exp`), an expired token fails verification
and the route replies with the generic invalid-token error, leaving the store
unchanged — no flip, no claim-expired reply. The `pending → expired` flip and
the claim-expired reply occur exactly for tokens that pass verification with
an embedded `expiresAt` in the past — the legacy payload shape
`{ cid, eml }` without `exp` — and the flip changes precisely the first
claim whose `tokenId` matches the token's bound claim id, and only from
`pending`. -/
theorem C6_amended_expiry_handling :
    (∀ (secret claimId email sessionEmail : String) (expiresAtMs nowMs : ℤ)
        (store : List Claim), expiresAtMs ≤ nowMs →
        claimRouteTokenGate secret
            (signClaimToken secret claimId email expiresAtMs) nowMs
            sessionEmail store =
          (.invalidToken, store)) ∧
    (∀ (secret c e sessionEmail : String) (expiresAtMs nowMs : ℤ)
        (store : List Claim),
        lowerStr e ≠ "" → c ≠ "" → expiresAtMs < nowMs →
        claimRouteTokenGate secret
            (jwtSign { cid := some c, eml := some e,
                       expiresAt := some expiresAtMs } secret) nowMs
            sessionEmail store =
          (.linkExpired, expireFlip c store)) ∧
    (∀ (tid : String) (pre suf : List Claim) (c : Claim),
        c.tokenId = tid → (∀ d ∈ pre, d.tokenId ≠ tid) →
        c.status = .pending →
        expireFlip tid (pre ++ c :: suf) =
          pre ++ { c with status := .expired } :: suf) := by
  refine ⟨?_, ?_, ?_⟩
  · intro secret claimId email sessionEmail expiresAtMs nowMs store hpast
    have hv : verifyClaimToken secret
        (signClaimToken secret claimId email expiresAtMs) nowMs = none := by
      simp only [verifyClaimToken, signClaimToken, jwtSign, jwtVerify, if_pos rfl]
      rw [if_pos (fdiv_thousand_mono hpast)]
      simp
    simp [claimRouteTokenGate, hv]
  · intro secret c e sessionEmail expiresAtMs nowMs store hemail hcid hpast
    have hv : verifyClaimToken secret
        (jwtSign { cid := some c, eml := some e,
                   expiresAt := some expiresAtMs } secret) nowMs =
        some ⟨c, lowerStr e, expiresAtMs⟩ := by
      simp [verifyClaimToken, jwtSign, jwtVerify]
    simp [claimRouteTokenGate, hv, hemail, hpast, hcid]
  · intro tid pre suf c hc hpre hpending
    induction pre with
    | nil =>
        simp only [List.nil_append, expireFlip, if_pos hc, if_pos hpending]
    | cons d rest ih =>
        have hd : d.tokenId ≠ tid := hpre d (List.mem_cons_self d rest)
        simp only [List.cons_append, expireFlip, if_neg hd]
        exact congrArg (d :: ·) (ih fun x hx => hpre x (List.mem_cons_of_mem d hx))

/-- Witness for C6 amended: a concrete expired signed token is rejected with
the generic invalid-token reply and the store is left unchanged. -/
theorem C6_witness :
    (1000 : ℤ) ≤ 5000000 ∧
      claimRouteTokenGate "claim-secret"
          (signClaimToken "claim-secret" "tok1" "new@user.com" 1000) 5000000
          "new@user.com" [sampleClaim] =
        (.invalidToken, [sampleClaim]) :=
  ⟨by norm_num,
   C6_amended_expiry_handling.1 "claim-secret" "tok1" "new@user.com"
     "new@user.com" 1000 5000000 [sampleClaim] (by norm_num)⟩

/-- A pending claim row whose `amountUnits` is zero. -/
def zeroClaim : Claim :=
  { sampleClaim with id := 2, tokenId := "tok2", amountUnits := 0 }

/-- C8 counterexample: in the claim sweep, a claim whose `amountUnits` is zero
does contribute a value-movement operation — the batch builder maps every
claim of the group to a `transferChecked` instruction with no amount filter,
so a zero-amount claim becomes a zero-value transfer instruction. -/
theorem C8_counterexample_zero_amount_claim_sweep_op :
    claimBatchInstructions TOKEN_PROGRAM_ID (.key "recipient") 1 [zeroClaim] =
      [Ix.transferChecked
        (getAssociatedTokenAddressSync USDC_MINT ESCROW_PUBKEY TOKEN_PROGRAM_ID)
        USDC_MINT
        (getAssociatedTokenAddressSync USDC_MINT (.key "recipient") TOKEN_PROGRAM_ID)
        ESCROW_PUBKEY 0 DECIMALS TOKEN_PROGRAM_ID] := by
  decide

/-- C8 amended: only the cancel sweep filters amounts — (1) every transfer
instruction it emits moves a strictly positive amount; (2) but a non-empty
cancel batch is always sent, even when every claim was filtered out, because
the skip guard `instructions.length <= 1` is always exceeded by the escrow
ensure-ATA instruction plus the per-sender ensure-ATA instructions; and
(3) the claim sweep includes one transfer instruction per claim of the group,
with the claim's `amountUnits` unfiltered (zero or negative included). -/
theorem C8_amended_zero_amount_filtering :
    (∀ (prog : Addr) (group : List Claim) (src mint dest auth : Addr)
        (amt : ℤ) (dec : ℕ) (p : Addr),
        Ix.transferChecked src mint dest auth amt dec p ∈
          cancelBatchInstructions prog group → 0 < amt) ∧
    (∀ (prog : Addr) (group : List Claim), group ≠ [] →
        cancelBatchSent prog group = true) ∧
    (∀ (prog recipientOwner : Addr) (idx : ℕ) (group : List Claim),
        ∀ cl ∈ group,
          Ix.transferChecked
              (getAssociatedTokenAddressSync USDC_MINT ESCROW_PUBKEY prog)
              USDC_MINT
              (getAssociatedTokenAddressSync USDC_MINT recipientOwner prog)
              ESCROW_PUBKEY cl.amountUnits DECIMALS prog ∈
            claimBatchInstructions prog recipientOwner idx group) := by
  refine ⟨?_, ?_, ?_⟩
  · intro prog group src mint dest auth amt dec p h
    simp only [cancelBatchInstructions] at h
    rw [List.mem_append] at h
    rcases h with h | h
    · rw [List.mem_cons] at h
      rcases h with h | h
      · simp at h
      · rcases List.mem_map.mp h with ⟨o, _, ho⟩
        simp at ho
    · rcases List.mem_filterMap.mp h with ⟨cl, _, hcl⟩
      by_cases hpos : 0 < cl.amountUnits
      · rw [if_pos hpos, Option.some.injEq] at hcl
        have h5 := (Ix.transferChecked.inj hcl).2.2.2.2.1
        omega
      · rw [if_neg hpos] at hcl
        exact absurd hcl (by simp)
  · intro prog group hne
    obtain ⟨g, gs, rfl⟩ := List.exists_cons_of_ne_nil hne
    simp only [cancelBatchSent, cancelBatchInstructions, List.map_cons,
      firstOccurrences, List.not_mem_nil, if_false, decide_eq_true_eq,
      List.length_cons, List.length_append, List.length_map]
    omega
  · intro prog recipientOwner idx group cl hcl
    simp only [claimBatchInstructions]
    split_ifs with h0
    · exact List.mem_cons_of_mem _
        (List.mem_cons_of_mem _ (List.mem_map_of_mem _ hcl))
    · exact List.mem_map_of_mem _ hcl

/-- Witness for C8 amended: the cancel batch holding only a zero-amount claim
is still sent. -/
theorem C8_witness :
    ([zeroClaim] : List Claim) ≠ [] ∧
      cancelBatchSent TOKEN_PROGRAM_ID [zeroClaim] = true :=
  ⟨by simp, C8_amended_zero_amount_filtering.2.1 TOKEN_PROGRAM_ID [zeroClaim]
    (by simp)⟩

/-- Outcomes of the client-assisted PATH A of `POST /api/relay`. -/
inductive PathAOutcome where
  | malformed
  | invalidFeePayer
  | broadcasted
deriving DecidableEq, Repr

/-- Model of PATH A (`app/api/relay/route.ts` lines 238–260): deserialize the
client-supplied transaction, check that its first static account key — the
fee-payer slot — equals the configured sponsor address (`HAVEN_PUBKEY`),
rejecting with 403 `Invalid fee payer in transaction` otherwise, and only
then let the sponsor wallet add its signature and broadcast
(`sponsorSignAndSend`), awaiting confirmation afterwards. A transaction with
no static keys makes the route throw before any signing
(`staticAccountKeys[0]` is undefined), reported here as `malformed`. -/
def relayPathA (staticAccountKeys : List Addr) : PathAOutcome × List Ev :=
  match staticAccountKeys.head? with
  | none => (.malformed, [])
  | some feePayer =>
      if feePayer = HAVEN_PUBKEY then
        (.broadcasted, [.sponsorSignAndSend, .confirmTx 0])
      else (.invalidFeePayer, [])

/-- C9: the relay verifies the fee-payer slot of every client-supplied
transaction against the configured sponsor identity: when the first static
account key is not the sponsor, the request is rejected and nothing is
signed or broadcast; conversely, the sponsor signature-and-broadcast step
happens only for transactions whose fee-payer slot is the sponsor. -/
theorem C9_fee_payer_guard (staticAccountKeys : List Addr) :
    (staticAccountKeys.head? ≠ some HAVEN_PUBKEY →
      (relayPathA staticAccountKeys).1 ≠ .broadcasted ∧
        Ev.sponsorSignAndSend ∉ (relayPathA staticAccountKeys).2) ∧
    (Ev.sponsorSignAndSend ∈ (relayPathA staticAccountKeys).2 →
      staticAccountKeys.head? = some HAVEN_PUBKEY) := by
  rcases hh : staticAccountKeys.head? with _ | k
  · constructor
    · intro _
      constructor <;> simp [relayPathA, hh]
    · intro hmem
      simp [relayPathA, hh] at hmem
  · by_cases hk : k = HAVEN_PUBKEY
    · subst hk
      constructor
      · intro hne
        exact absurd rfl hne
      · intro _
        rfl
    · constructor
      · intro _
        constructor <;> simp [relayPathA, hh, hk]
      · intro hmem
        simp [relayPathA, hh, hk] at hmem

/-- Witness for C9 at a transaction whose stated fee payer is not the
sponsor: the request is rejected and the sponsor never signs. -/
theorem C9_witness :
    ([Addr.key "attacker", Addr.key "victim"] : List Addr).head? ≠
        some HAVEN_PUBKEY ∧
      (relayPathA [Addr.key "attacker", Addr.key "victim"]).1 ≠ .broadcasted ∧
        Ev.sponsorSignAndSend ∉
          (relayPathA [Addr.key "attacker", Addr.key "victim"]).2 :=
  ⟨by decide, C9_fee_payer_guard [Addr.key "attacker", Addr.key "victim"] |>.1
    (by decide)⟩

end Haven
